import Mathlib

/-!
Shallow embedding of the RestrictedIDE policy-evaluation core
(`src/ide-core/policy/PolicyEngine.js`, `src/ide-core/policy/rules/*`,
`src/ide-core/runtime/RuntimeManager.js`), together with theorems settling
the behavioural claims about it.

Conventions of the embedding:
* JavaScript strings are Lean `String`s; Node's `path` module is modelled in
  its POSIX flavour (separator `/`), which is the variant exercised by the
  macOS/deployment configuration of this repository.
* JS `Set`s and `Map`s are modelled as lists (membership / first-match
  association lookup), which is observationally faithful for the operations
  the code performs (`has`, `get`, iteration).
* Machine integers (`Date.now()` timestamps, sizes, config durations) are
  `Nat`: the code only adds, subtracts (on ordered values) and compares them.
* Fallible external calls (`new URL`, `bcrypt.compare`) are modelled by an
  explicit `Option` result / a boolean oracle parameter.
-/

namespace RestrictedIDE

/-- `Verdict` — the `{allowed, reason}` object every rule evaluator returns.
A JS result object without a `reason` field is `reason := none`. -/
structure Verdict where
  allowed : Bool
  reason  : Option String
deriving DecidableEq, Repr

/-- Truthiness of a JS string: `""` is falsy, everything else truthy.
Used to model guards such as `if (!filePath)` and `s || defaultValue`. -/
def jsStrTruthy (s : String) : Bool := s ≠ ""

/-- JS `a || b` on strings: returns `b` when `a` is falsy (empty). -/
def jsStrOr (a b : String) : String := if a = "" then b else a

/-- JS `String.prototype.includes(sub)`: substring containment, modelled as
list-infix on the character data. -/
def jsIncludes (s sub : String) : Bool := decide (sub.data <:+: s.data)

/-- JS `String.prototype.toLowerCase()`, modelled as character-wise ASCII
lowercasing (the strings the engine lowercases are paths, extensions and
executable names). -/
def jsToLower (s : String) : String := String.mk (s.data.map Char.toLower)

/-- JS `String.prototype.startsWith(pre)`, modelled as list-prefix on the
character data. -/
def jsStartsWith (s pre : String) : Bool := decide (pre.data <+: s.data)

/-! ### Model of Node's `path` module (POSIX flavour, separator `/`) -/

/-- Split a character list on a separator character; like JS
`str.split(sep)`, adjacent separators produce empty segments. -/
def splitOnChar (c : Char) : List Char → List (List Char)
  | [] => [[]]
  | x :: xs =>
    match splitOnChar c xs with
    | [] => [[]]
    | p :: ps => if x = c then [] :: p :: ps else (x :: p) :: ps

/-- One step of POSIX `path.normalize`'s segment resolution: skip empty and
`.` segments; on `..` pop a resolvable segment from the (reversed) output
stack, drop it at the root of an absolute path, and keep it for a relative
path.  `out` holds the emitted segments in reverse order. -/
def normStep (isAbs : Bool) (out : List (List Char)) (seg : List Char) : List (List Char) :=
  if seg = [] ∨ seg = ['.'] then out
  else if seg = ['.', '.'] then
    match out with
    | [] => if isAbs then [] else [seg]
    | last :: rest => if last = ['.', '.'] then seg :: out else rest
  else seg :: out

/-- Model of Node `path.posix.normalize`: collapse separators, resolve `.`
and `..`, preserve a trailing separator, map the empty result to `/` or `.`. -/
def jsPathNormalize (p : String) : String :=
  if p = "" then "." else
  let isAbs := p.data.head? = some '/'
  let trail := p.data.getLast? = some '/'
  let segs := ((splitOnChar '/' p.data).foldl (normStep isAbs) []).reverse
  let body := String.intercalate "/" (segs.map fun l => String.mk l)
  if body = "" then (if isAbs then "/" else ".")
  else
    let withTrail := if trail then body ++ "/" else body
    if isAbs then "/" ++ withTrail else withTrail

/-- Model of Node `path.posix.isAbsolute`. -/
def jsPathIsAbsolute (p : String) : Bool := p.data.head? = some '/'

/-- Model of Node `path.posix.join` restricted to two arguments: concatenate
the non-empty parts with `/` and normalize. -/
def jsPathJoin (a b : String) : String :=
  if a = "" ∧ b = "" then "."
  else if a = "" then jsPathNormalize b
  else if b = "" then jsPathNormalize a
  else jsPathNormalize (a ++ "/" ++ b)

/-- Model of Node `path.posix.basename`: drop trailing separators, then take
the final segment. -/
def jsPathBasename (p : String) : String :=
  String.mk (((p.data.reverse.dropWhile (· = '/')).takeWhile (· ≠ '/')).reverse)

/-- Model of Node `path.posix.extname`: the suffix of the basename from its
last `.`, empty when the `.` leads the basename (dotfile) or the basename is
`..`. -/
def jsPathExtname (p : String) : String :=
  let base := jsPathBasename p
  if base = ".." then ""
  else
    let revBase := base.data.reverse
    let revExt := revBase.takeWhile (· ≠ '.')
    if revExt.length = revBase.length then ""           -- no dot at all
    else if revExt.length + 1 = revBase.length then
      -- the only dot is the first character of the basename: no extension
      ""
    else String.mk ('.' :: revExt.reverse)

/-! ### FileAccessRule (`src/ide-core/policy/rules/…`, class `FileAccessRule`)

The structure holds the state the constructor builds from the `fileAccess`
policy section: `mode` (`config.mode || 'sandbox'`), `sandboxPath`
(`config.sandboxPath || ''` — the empty string is the "unset" state),
lower-cased `allowedExtensions`, `maxFileSize`, and normalized lower-cased
`allowedPaths` / `deniedPaths`.  `process.cwd()` is passed explicitly as
`cwd`. -/

structure FileAccessRule where
  mode : String
  sandboxPath : String
  allowedExtensions : List String
  maxFileSize : Nat
  allowedPaths : List String
  deniedPaths : List String
deriving Repr

/-- `FileAccessRule.validateSandbox`: fail closed when no sandbox path is
configured; otherwise require the path to start with the normalized sandbox
root or with an explicitly allowed path prefix. -/
def FileAccessRule.validateSandbox (r : FileAccessRule) (absolutePath : String)
    (_operation : String) : Verdict :=
  if ¬ jsStrTruthy r.sandboxPath then ⟨false, some "Sandbox path not configured"⟩
  else
    let normalizedSandbox := jsToLower (jsPathNormalize r.sandboxPath)
    if ¬ jsStartsWith absolutePath normalizedSandbox then
      if r.allowedPaths.any (fun ap => jsStartsWith absolutePath ap) then ⟨true, none⟩
      else ⟨false, some "Path outside sandbox"⟩
    else ⟨true, none⟩

/-- `FileAccessRule.validateWhitelist`: allowed iff the path starts with one
of the allowed path prefixes. -/
def FileAccessRule.validateWhitelist (r : FileAccessRule) (absolutePath : String)
    (_operation : String) : Verdict :=
  if r.allowedPaths.any (fun ap => jsStartsWith absolutePath ap) then ⟨true, none⟩
  else ⟨false, some "Path not in whitelist"⟩

/-- `FileAccessRule.validate(filePath, operation)`: invalid-input check, raw
`..` traversal check, denied-path prefix check, extension check, then the
mode dispatch (`sandbox` / `whitelist` / anything else = blacklist-style
allow). -/
def FileAccessRule.validate (r : FileAccessRule) (cwd : String)
    (filePath : String) (operation : String) : Verdict :=
  if ¬ jsStrTruthy filePath then ⟨false, some "Invalid file path"⟩
  else
    let normalizedPath := jsToLower (jsPathNormalize filePath)
    let absolutePath :=
      if jsPathIsAbsolute filePath then normalizedPath
      else jsPathJoin cwd normalizedPath
    if jsIncludes filePath ".." then ⟨false, some "Path traversal not allowed"⟩
    else
      match r.deniedPaths.find? (fun denied => jsStartsWith absolutePath denied) with
      | some denied => ⟨false, some ("Access denied to path: " ++ denied)⟩
      | none =>
        let ext := jsToLower (jsPathExtname filePath)
        if jsStrTruthy ext ∧ r.allowedExtensions ≠ [] ∧ ¬ r.allowedExtensions.contains ext then
          ⟨false, some ("File extension not allowed: " ++ ext)⟩
        else if r.mode = "sandbox" then r.validateSandbox absolutePath operation
        else if r.mode = "whitelist" then r.validateWhitelist absolutePath operation
        else ⟨true, none⟩

/-- `FileAccessRule.validateFileSize(size)`: the separate size gate. -/
def FileAccessRule.validateFileSize (r : FileAccessRule) (size : Nat) : Verdict :=
  if size > r.maxFileSize then
    ⟨false, some ("File size exceeds limit: " ++ toString size ++ " > " ++ toString r.maxFileSize)⟩
  else ⟨true, none⟩

/-- A raw input path has a parent-directory segment when splitting it on the
path separator yields a `..` segment. -/
def hasParentDirSegment (p : String) : Bool :=
  (splitOnChar '/' p.data).any (· = ['.', '.'])

/-- `splitOnChar` always yields at least one segment. -/
theorem splitOnChar_ne_nil (c : Char) (l : List Char) : splitOnChar c l ≠ [] := by
  cases l with
  | nil => simp [splitOnChar]
  | cons x xs =>
    simp only [splitOnChar]
    cases hxs : splitOnChar c xs with
    | nil => simp
    | cons p ps => by_cases hc : x = c <;> simp [hc]

/-- The first segment produced by `splitOnChar` is a prefix of the input. -/
theorem splitOnChar_head_starts (c : Char) :
    ∀ (l : List Char) (p : List Char) (ps : List (List Char)),
      splitOnChar c l = p :: ps → p <+: l := by
  intro l
  induction l with
  | nil =>
    intro p ps h
    simp only [splitOnChar] at h
    cases h
    exact List.nil_prefix
  | cons x xs ih =>
    intro p ps h
    cases hxs : splitOnChar c xs with
    | nil => exact absurd hxs (splitOnChar_ne_nil c xs)
    | cons q qs =>
      simp only [splitOnChar, hxs] at h
      by_cases hc : x = c
      · rw [if_pos hc] at h
        cases h
        exact List.nil_prefix
      · rw [if_neg hc] at h
        cases h
        exact (List.prefix_cons_inj x).mpr (ih q _ hxs)

/-- Every segment produced by `splitOnChar` is an infix of the input. -/
theorem splitOnChar_mem_infix (c : Char) :
    ∀ (l : List Char) (part : List Char), part ∈ splitOnChar c l → part <:+: l := by
  intro l
  induction l with
  | nil =>
    intro part h
    simp only [splitOnChar, List.mem_singleton] at h
    subst h
    exact List.nil_infix
  | cons x xs ih =>
    intro part h
    cases hxs : splitOnChar c xs with
    | nil => exact absurd hxs (splitOnChar_ne_nil c xs)
    | cons q qs =>
      simp only [splitOnChar, hxs] at h
      by_cases hc : x = c
      · rw [if_pos hc] at h
        rcases List.mem_cons.mp h with hp | hp
        · subst hp; exact List.nil_infix
        · exact List.infix_cons (ih part (hxs ▸ hp))
      · rw [if_neg hc] at h
        rcases List.mem_cons.mp h with hp | hp
        · subst hp
          exact ((List.prefix_cons_inj x).mpr (splitOnChar_head_starts c xs q qs hxs)).isInfix
        · exact List.infix_cons (ih part (hxs ▸ (List.mem_cons_of_mem q hp)))

/-- A path with a `..` parent-directory segment contains `..` as a
substring, so the raw `filePath.includes('..')` test fires on it. -/
theorem hasParentDirSegment_jsIncludes (p : String)
    (h : hasParentDirSegment p = true) : jsIncludes p ".." = true := by
  unfold hasParentDirSegment at h
  rcases List.any_eq_true.mp h with ⟨part, hmem, heq⟩
  have hpart : part = ['.', '.'] := by simpa using heq
  subst hpart
  have hinf := splitOnChar_mem_infix '/' p.data _ hmem
  simpa [jsIncludes] using hinf

/-- A path with a `..` parent-directory segment is not the empty string. -/
theorem hasParentDirSegment_ne_empty (p : String)
    (h : hasParentDirSegment p = true) : p ≠ "" := by
  intro hp
  subst hp
  simp [hasParentDirSegment, splitOnChar] at h

/-- C3: when the rule is in sandbox mode with an unset (empty) sandbox path,
`FileAccessRule.validate` denies every path and every operation — every
branch of the decision tree ends in a denial, including the final
`validateSandbox` dispatch, which fails closed with
"Sandbox path not configured". -/
theorem fileAccess_sandbox_unset_denies_all (r : FileAccessRule)
    (hm : r.mode = "sandbox") (hs : r.sandboxPath = "")
    (cwd filePath operation : String) :
    (r.validate cwd filePath operation).allowed = false := by
  unfold FileAccessRule.validate FileAccessRule.validateSandbox
  simp only [hm, hs]
  repeat' split
  all_goals simp_all [jsStrTruthy]

/-- C3 witness: the concrete misconfigured rule denies a concrete in-sandbox
looking path. -/
theorem fileAccess_sandbox_unset_denies_all_example :
    (FileAccessRule.mk "sandbox" "" [".txt"] 1000 [] []).mode = "sandbox" ∧
    (FileAccessRule.mk "sandbox" "" [".txt"] 1000 [] []).sandboxPath = "" ∧
    ((FileAccessRule.mk "sandbox" "" [".txt"] 1000 [] []).validate
      "/cwd" "/sandbox/notes.txt" "read").allowed = false :=
  ⟨rfl, rfl,
    fileAccess_sandbox_unset_denies_all _ rfl rfl "/cwd" "/sandbox/notes.txt" "read"⟩

/-- C4: any input path containing a `..` parent-directory segment is denied
with "Path traversal not allowed" for every rule configuration, every
working directory and every operation: the check runs on the raw input
string before the denied-path, extension and mode-dispatch stages. -/
theorem fileAccess_traversal_denied (r : FileAccessRule)
    (cwd filePath operation : String)
    (h : hasParentDirSegment filePath = true) :
    r.validate cwd filePath operation = ⟨false, some "Path traversal not allowed"⟩ := by
  have hinc := hasParentDirSegment_jsIncludes filePath h
  have hne := hasParentDirSegment_ne_empty filePath h
  unfold FileAccessRule.validate
  simp [jsStrTruthy, hne, hinc]

/-- C4 witness: the spec's own scenario `/sandbox/../etc/passwd` is denied
as traversal even though it normalizes to the out-of-sandbox `/etc/passwd`. -/
theorem fileAccess_traversal_denied_example :
    hasParentDirSegment "/sandbox/../etc/passwd" = true ∧
    (FileAccessRule.mk "sandbox" "/sandbox" [".txt"] 1000 [] []).validate
      "/cwd" "/sandbox/../etc/passwd" "read"
      = ⟨false, some "Path traversal not allowed"⟩ :=
  ⟨by decide,
    fileAccess_traversal_denied _ "/cwd" "/sandbox/../etc/passwd" "read" (by decide)⟩

/-- C10: the path verdict of `FileAccessRule.validate` does not depend on
the operation argument (read/write/delete all get the same verdict), nor on
the configured `maxFileSize`; the size limit is enforced only by the
separate `validateFileSize` check, which allows exactly the sizes up to
`maxFileSize`. -/
theorem fileAccess_validate_operation_independent (r : FileAccessRule)
    (cwd filePath : String) :
    (∀ op₁ op₂ : String, r.validate cwd filePath op₁ = r.validate cwd filePath op₂) ∧
    (∀ m : Nat, (FileAccessRule.mk r.mode r.sandboxPath r.allowedExtensions m
        r.allowedPaths r.deniedPaths).validate cwd filePath
      = r.validate cwd filePath) ∧
    (∀ size : Nat, (r.validateFileSize size).allowed = true ↔ size ≤ r.maxFileSize) := by
  refine ⟨fun op₁ op₂ => rfl, fun m => rfl, fun size => ?_⟩
  unfold FileAccessRule.validateFileSize
  split
  · simpa using by omega
  · simpa using by omega

/-! ### ProcessRule (`src/ide-core/policy/rules/ProcessRule.js`) -/

/-- The fixed built-in allowlist of OS-critical system processes
(`this.systemProcesses` in the `ProcessRule` constructor). -/
def systemProcesses : List String :=
  ["system", "idle", "csrss.exe", "smss.exe", "services.exe", "lsass.exe",
   "svchost.exe", "conhost.exe", "dwm.exe", "winlogon.exe", "wininit.exe"]

/-- `ProcessRule` constructor state: `mode` (`config.mode || 'whitelist'`)
and the lower-cased `allowed` / `blocked` sets. -/
structure ProcessRule where
  mode : String
  allowed : List String
  blocked : List String
deriving Repr

/-- `ProcessRule.validate(processName)`: invalid-input check, basename
extraction and lower-casing, system-process override, explicit blocklist,
then whitelist membership or blacklist-mode default allow. -/
def ProcessRule.validate (r : ProcessRule) (processName : String) : Verdict :=
  if ¬ jsStrTruthy processName then ⟨false, some "Invalid process name"⟩
  else
    let exeName := jsToLower (jsPathBasename processName)
    if systemProcesses.contains exeName then ⟨true, some "System process"⟩
    else if r.blocked.contains exeName then
      ⟨false, some ("Process explicitly blocked: " ++ exeName)⟩
    else if r.mode = "whitelist" then
      if r.allowed.contains exeName then ⟨true, none⟩
      else ⟨false, some ("Process not in whitelist: " ++ exeName)⟩
    else ⟨true, none⟩

/-- C5: a process whose lower-cased basename is one of the built-in system
processes is always allowed with reason "System process", whatever the mode
and whatever the allowed/blocked lists — including a whitelist that omits it
and a blocklist that explicitly names it, because the system-process check
runs before the blocklist and mode checks. -/
theorem processRule_system_always_allowed (r : ProcessRule) (processName : String)
    (h : systemProcesses.contains (jsToLower (jsPathBasename processName)) = true) :
    r.validate processName = ⟨true, some "System process"⟩ := by
  have hne : processName ≠ "" := by
    intro hp
    subst hp
    revert h
    decide
  have hmem : jsToLower (jsPathBasename processName) ∈ systemProcesses := by
    simpa using h
  unfold ProcessRule.validate
  simp [jsStrTruthy, hne, hmem]

/-- C5 witness: `csrss.exe` (by full path, mixed case) is allowed even by a
whitelist-mode rule that does not whitelist it and explicitly blocks it. -/
theorem processRule_system_always_allowed_example :
    systemProcesses.contains
      (jsToLower (jsPathBasename "/Windows/System32/CSRSS.EXE")) = true ∧
    (ProcessRule.mk "whitelist" [] ["csrss.exe"]).validate "/Windows/System32/CSRSS.EXE"
      = ⟨true, some "System process"⟩ :=
  ⟨by decide, processRule_system_always_allowed _ _ (by decide)⟩

/-! ### KeyboardRule (`src/ide-core/policy/rules/…`, class `KeyboardRule`) -/

/-- The relation the JS default array sort uses on strings: lexicographic
comparison of the character sequences. -/
def strDataLe (a b : String) : Prop := a.data ≤ b.data

instance : DecidableRel strDataLe := fun a b => inferInstanceAs (Decidable (a.data ≤ b.data))

instance : IsTotal String strDataLe := ⟨fun a b => le_total a.data b.data⟩

instance : IsTrans String strDataLe := ⟨fun _ _ _ hab hbc => le_trans hab hbc⟩

instance : IsAntisymm String strDataLe :=
  ⟨fun a b hab hba => by
    cases a
    cases b
    exact congrArg String.mk (le_antisymm hab hba)⟩

/-- Model of JS `Array.prototype.sort()` on an array of strings. -/
def sortStrings (l : List String) : List String := List.insertionSort strDataLe l

/-- Sorting is invariant under permutation of the input. -/
theorem sortStrings_perm_eq {l₁ l₂ : List String} (h : l₁.Perm l₂) :
    sortStrings l₁ = sortStrings l₂ :=
  List.eq_of_perm_of_sorted
    (((List.perm_insertionSort strDataLe l₁).trans h).trans
      (List.perm_insertionSort strDataLe l₂).symm)
    (List.sorted_insertionSort strDataLe l₁)
    (List.sorted_insertionSort strDataLe l₂)

/-- `keys.map(k => k.toLowerCase()).sort().join('+')` — the canonical
`NormalizedCombo` encoding used both at configuration time and in
`KeyboardRule.validate`. -/
def normalizeCombo (keys : List String) : String :=
  String.intercalate "+" (sortStrings (keys.map jsToLower))

/-- A configured key-combination entry: a bare array combo has no reason
(`reason := none`); `{keys, reason}` objects may carry one (the JS `||`
default also treats a present-but-empty reason as absent). -/
structure ComboConfig where
  keys : List String
  reason : Option String
deriving Repr

/-- The value stored in the normalized combo map: the original key list and
the resolved reason string. -/
structure ComboEntry where
  keys : List String
  reason : String
deriving Repr, DecidableEq

/-- JS `Map.prototype.set`: overwrite an existing key in place, otherwise
append. -/
def mapSet (m : List (String × ComboEntry)) (k : String) (v : ComboEntry) :
    List (String × ComboEntry) :=
  if m.any (fun p => p.1 = k) then m.map (fun p => if p.1 = k then (k, v) else p)
  else m ++ [(k, v)]

/-- `KeyboardRule.normalizeKeyCombos(combos)`: build the
`NormalizedCombo → {keys, reason}` map; the stored reason is
`combo.reason || 'Policy restriction'`. -/
def normalizeKeyCombos (combos : List ComboConfig) : List (String × ComboEntry) :=
  combos.foldl
    (fun m combo =>
      mapSet m (normalizeCombo combo.keys)
        ⟨combo.keys, jsStrOr (combo.reason.getD "") "Policy restriction"⟩)
    []

/-- `KeyboardRule` constructor state: `mode` (`config.mode || 'blacklist'`)
and the two normalized combo maps. -/
structure KeyboardRule where
  mode : String
  blocked : List (String × ComboEntry)
  allowed : List (String × ComboEntry)

/-- The `KeyboardRule` constructor applied to a parsed `keyboard` policy
section. -/
def mkKeyboardRule (mode : String) (blockedCfg allowedCfg : List ComboConfig) :
    KeyboardRule :=
  ⟨jsStrOr mode "blacklist", normalizeKeyCombos blockedCfg, normalizeKeyCombos allowedCfg⟩

/-- `KeyboardRule.validate(keys)`: empty chord is allowed; otherwise look up
the normalized combo in the blocked map (blacklist mode) or the allowed map
(whitelist mode). -/
def KeyboardRule.validate (r : KeyboardRule) (keys : List String) : Verdict :=
  if keys = [] then ⟨true, none⟩
  else
    let normalized := normalizeCombo keys
    if r.mode = "blacklist" then
      match r.blocked.lookup normalized with
      | some blockedEntry => ⟨false, some (jsStrOr blockedEntry.reason "Key combination blocked")⟩
      | none => ⟨true, none⟩
    else
      match r.allowed.lookup normalized with
      | some _ => ⟨true, none⟩
      | none => ⟨false, some "Key combination not in whitelist"⟩

/-- C8: `KeyboardRule.validate` returns an identical verdict on any
permutation of the key list — the normalized combo (lower-case, sort, join)
is permutation-invariant, and an empty list stays empty under permutation. -/
theorem keyboardRule_validate_perm_invariant (r : KeyboardRule)
    (keys₁ keys₂ : List String) (h : keys₁.Perm keys₂) :
    r.validate keys₁ = r.validate keys₂ := by
  have hn : normalizeCombo keys₁ = normalizeCombo keys₂ := by
    unfold normalizeCombo
    rw [sortStrings_perm_eq (h.map jsToLower)]
  by_cases h1 : keys₁ = []
  · have h2 : keys₂ = [] := by
      subst h1
      exact h.nil_eq.symm
    rw [h1, h2]
  · have h2 : keys₂ ≠ [] := by
      intro h2
      subst h2
      exact h1 h.eq_nil
    unfold KeyboardRule.validate
    rw [if_neg h1, if_neg h2, hn]

/-- C8 witness: the spec's keyboard scenario — `["tab","alt"]` and
`["alt","tab"]` get the identical (denied) verdict. -/
theorem keyboardRule_validate_perm_invariant_example :
    (["tab", "alt"] : List String).Perm ["alt", "tab"] ∧
    (mkKeyboardRule "blacklist" [⟨["alt", "tab"], some "Window switching"⟩] []).validate
        ["tab", "alt"]
      = (mkKeyboardRule "blacklist" [⟨["alt", "tab"], some "Window switching"⟩] []).validate
        ["alt", "tab"] :=
  ⟨by decide, keyboardRule_validate_perm_invariant _ _ _ (by decide)⟩

/-- A successful association-list lookup returns a stored pair. -/
theorem lookup_mem {m : List (String × ComboEntry)} {k : String} {e : ComboEntry}
    (h : m.lookup k = some e) : (k, e) ∈ m := by
  induction m with
  | nil => simp [List.lookup] at h
  | cons p rest ih =>
    rw [List.lookup] at h
    cases hbe : k == p.1 with
    | true =>
      rw [hbe] at h
      have he2 : some p.2 = some e := h
      have hke : (k, e) = p := by
        obtain ⟨p1, p2⟩ := p
        exact Prod.ext (beq_iff_eq.mp hbe) (Option.some.inj he2).symm
      rw [hke]
      exact List.mem_cons_self p rest
    | false =>
      rw [hbe] at h
      exact List.mem_cons_of_mem p (ih h)

/-- Every pair of `mapSet m k v` is a pair of `m` or the new pair `(k, v)`. -/
theorem mapSet_mem {m : List (String × ComboEntry)} {k : String} {v : ComboEntry}
    {p : String × ComboEntry} (h : p ∈ mapSet m k v) : p ∈ m ∨ p = (k, v) := by
  unfold mapSet at h
  by_cases hany : m.any (fun q => q.1 = k)
  · rw [if_pos (by simpa using hany)] at h
    rcases List.mem_map.mp h with ⟨q, hq, hqe⟩
    by_cases hqk : q.1 = k
    · right
      rw [if_pos hqk] at hqe
      exact hqe.symm
    · left
      rw [if_neg hqk] at hqe
      exact hqe ▸ hq
  · rw [if_neg (by simpa using hany)] at h
    rcases List.mem_append.mp h with hq | hq
    · exact Or.inl hq
    · exact Or.inr (List.mem_singleton.mp hq)

/-- Every entry of the map built by `normalizeKeyCombos` stores the resolved
reason `combo.reason || 'Policy restriction'` of one of the configured
combos. -/
theorem normalizeKeyCombos_reason (combos : List ComboConfig) (k : String)
    (e : ComboEntry) (h : (normalizeKeyCombos combos).lookup k = some e) :
    ∃ c ∈ combos, e.reason = jsStrOr (c.reason.getD "") "Policy restriction" := by
  -- entries of the fold come from the accumulator or from the processed combos
  have main : ∀ (cs : List ComboConfig) (acc : List (String × ComboEntry)),
      ∀ p ∈ cs.foldl
        (fun m combo =>
          mapSet m (normalizeCombo combo.keys)
            ⟨combo.keys, jsStrOr (combo.reason.getD "") "Policy restriction"⟩) acc,
        p ∈ acc ∨ ∃ c ∈ cs, p.2.reason = jsStrOr (c.reason.getD "") "Policy restriction" := by
    intro cs
    induction cs with
    | nil =>
      intro acc p hp
      exact Or.inl hp
    | cons c rest ih =>
      intro acc p hp
      rw [List.foldl_cons] at hp
      rcases ih _ p hp with hacc | ⟨c', hc', he⟩
      · rcases mapSet_mem hacc with hm | hnew
        · exact Or.inl hm
        · exact Or.inr ⟨c, List.mem_cons_self c rest, by rw [hnew]⟩
      · exact Or.inr ⟨c', List.mem_cons_of_mem c hc', he⟩
  have hm := lookup_mem h
  unfold normalizeKeyCombos at hm
  rcases main combos [] (k, e) hm with hacc | ⟨c, hc, he⟩
  · simp at hacc
  · exact ⟨c, hc, he⟩

/-- C9 (amended): in blacklist mode a blocked combo is denied with the
per-combo stored reason, and that stored reason is
`configured reason || "Policy restriction"` — i.e. the default reason for an
entry configured without a reason is "Policy restriction", applied at
normalization time, so the validate-time fallback "Key combination blocked"
is never reached. -/
theorem keyboardRule_blacklist_stored_reason (blockedCfg allowedCfg : List ComboConfig)
    (keys : List String) (e : ComboEntry) (hkeys : keys ≠ [])
    (hl : (normalizeKeyCombos blockedCfg).lookup (normalizeCombo keys) = some e) :
    (mkKeyboardRule "blacklist" blockedCfg allowedCfg).validate keys
      = ⟨false, some e.reason⟩
    ∧ ∃ c ∈ blockedCfg, e.reason = jsStrOr (c.reason.getD "") "Policy restriction" := by
  obtain ⟨c, hc, he⟩ := normalizeKeyCombos_reason blockedCfg _ e hl
  have hne : e.reason ≠ "" := by
    rw [he]
    unfold jsStrOr
    split
    · decide
    · assumption
  refine ⟨?_, c, hc, he⟩
  unfold KeyboardRule.validate mkKeyboardRule
  rw [if_neg hkeys]
  simp only [jsStrOr]
  rw [if_neg (by decide : ¬ ("blacklist" : String) = "")]
  rw [if_pos rfl]
  simp only [hl]
  rw [if_neg hne]

/-- C9 witness for the amended statement: a blocked `alt+tab` combo with a
configured reason is denied with exactly that reason. -/
theorem keyboardRule_blacklist_stored_reason_example :
    (["alt", "tab"] : List String) ≠ [] ∧
    (normalizeKeyCombos [⟨["alt", "tab"], some "Window switching"⟩]).lookup
        (normalizeCombo ["tab", "alt"]) = some ⟨["alt", "tab"], "Window switching"⟩ ∧
    (mkKeyboardRule "blacklist" [⟨["alt", "tab"], some "Window switching"⟩] []).validate
        ["tab", "alt"] = ⟨false, some "Window switching"⟩ :=
  ⟨by decide, by decide,
    (keyboardRule_blacklist_stored_reason [⟨["alt", "tab"], some "Window switching"⟩] []
      ["tab", "alt"] ⟨["alt", "tab"], "Window switching"⟩ (by decide) (by decide)).1⟩

/-- C9 counterexample to the claim as stated: a blocked combo configured
*without* a reason is denied with the normalization-time default
"Policy restriction", not with the claimed validate-time default
"Key combination blocked". -/
theorem keyboardRule_default_reason_counterexample :
    (mkKeyboardRule "blacklist" [⟨["alt", "tab"], none⟩] []).validate ["alt", "tab"]
      = ⟨false, some "Policy restriction"⟩
    ∧ ("Policy restriction" : String) ≠ "Key combination blocked" := by
  constructor
  · decide
  · decide

/-! ### UrlRule (`src/ide-core/policy/rules/UrlRule.js`) -/

/-- Matching of a compiled glob pattern (every character literal except `*`,
which matches any substring) against a full string; recursion is structural
on the pattern. -/
def globMatch : List Char → List Char → Bool
  | [], s => s.isEmpty
  | p :: ps, s =>
    if p = '*' then s.tails.any (globMatch ps)
    else
      match s with
      | [] => false
      | c :: cs => p = c && globMatch ps cs

/-- Model of one compiled non-`^` pattern from `UrlRule.compilePatterns`:
the glob is escaped, `*` becomes `.*`, the regex is anchored at both ends
and case-insensitive — i.e. a whole-string case-insensitive glob match.
(`^`-prefixed patterns compile to raw regexes; the theorems quantify over
arbitrary compiled testers, so those need no dedicated model.) -/
def jsCompileGlob (pattern : String) : String → Bool := fun url =>
  globMatch (jsToLower pattern).data (jsToLower url).data

/-- The WHATWG special schemes whose URLs must carry a non-empty host
(`file` also is special but tolerates an empty host). -/
def specialSchemes : List String := ["ftp", "http", "https", "ws", "wss"]

/-- Model of the `new URL(url).protocol` read in `UrlRule.validate`,
returning `none` when the URL constructor throws: the input must begin with
a scheme (`[a-z][a-z0-9+-.]*:`), and a special scheme must be followed —
after any run of slashes — by a non-empty host. -/
def jsUrlProtocol (url : String) : Option String :=
  match url.data with
  | [] => none
  | c :: rest =>
    if ¬ c.isAlpha then none
    else
      let schemeRest := rest.takeWhile fun ch =>
        ch.isAlphanum ∨ ch = '+' ∨ ch = '-' ∨ ch = '.'
      match rest.drop schemeRest.length with
      | ':' :: tail =>
        let scheme := jsToLower (String.mk (c :: schemeRest))
        if specialSchemes.contains scheme then
          match tail.dropWhile (fun ch => ch = '/' ∨ ch = '\\') with
          | [] => none
          | h :: _ => if h = '?' ∨ h = '#' then none else some (scheme ++ ":")
        else some (scheme ++ ":")
      | _ => none

/-- `UrlRule` constructor state: `mode` (`config.mode || 'whitelist'`) and
the compiled pattern testers produced by `compilePatterns`. -/
structure UrlRule where
  mode : String
  patterns : List (String → Bool)

/-- `UrlRule.validate(url)`: invalid-input check, URL parse
(`new URL(url)`), protocol gate, then the whitelist/blacklist pattern
check — `pattern.test(url)` runs on the raw input string. -/
def UrlRule.validate (r : UrlRule) (url : String) : Verdict :=
  if ¬ jsStrTruthy url then ⟨false, some "Invalid URL"⟩
  else
    match jsUrlProtocol url with
    | none => ⟨false, some "Malformed URL"⟩
    | some protocol =>
      if ¬ (["http:", "https:"].contains protocol) then
        ⟨false, some ("Protocol not allowed: " ++ protocol)⟩
      else
        let anyMatch := r.patterns.any (fun pattern => pattern url)
        if r.mode = "whitelist" then
          if anyMatch then ⟨true, none⟩ else ⟨false, some "URL not in whitelist"⟩
        else
          if anyMatch then ⟨false, some "URL is blacklisted"⟩ else ⟨true, none⟩

/-- C7: `UrlRule.validate` (a) denies an unparseable URL ("Invalid URL" for
the empty string, "Malformed URL" otherwise), (b) denies any parsed URL
whose protocol is not `http:`/`https:` with a reason containing
"Protocol not allowed" — before any pattern is consulted, and (c) for a
well-formed http/https URL the verdict is exactly the whitelist
(allowed iff some compiled pattern matches, else "URL not in whitelist") or
blacklist (allowed iff no pattern matches) decision. -/
theorem urlRule_validate_characterization (r : UrlRule) (url : String) :
    (jsUrlProtocol url = none →
      r.validate url
        = if url = "" then ⟨false, some "Invalid URL"⟩ else ⟨false, some "Malformed URL"⟩)
    ∧ (∀ protocol, jsUrlProtocol url = some protocol →
        (["http:", "https:"] : List String).contains protocol = false →
        r.validate url = ⟨false, some ("Protocol not allowed: " ++ protocol)⟩)
    ∧ (∀ protocol, jsUrlProtocol url = some protocol →
        (["http:", "https:"] : List String).contains protocol = true →
        (r.mode = "whitelist" →
          r.validate url
            = if r.patterns.any (fun pattern => pattern url) then ⟨true, none⟩
              else ⟨false, some "URL not in whitelist"⟩)
        ∧ (r.mode ≠ "whitelist" →
          r.validate url
            = if r.patterns.any (fun pattern => pattern url) then
                ⟨false, some "URL is blacklisted"⟩
              else ⟨true, none⟩)) := by
  have hempty : jsUrlProtocol "" = none := rfl
  refine ⟨?_, ?_, ?_⟩
  · intro hp
    by_cases hu : url = ""
    · subst hu
      rfl
    · unfold UrlRule.validate
      simp [jsStrTruthy, hu, hp]
  · intro protocol hp hcon
    have hu : url ≠ "" := by
      intro h
      subst h
      rw [hempty] at hp
      cases hp
    have hne : protocol ≠ "http:" ∧ protocol ≠ "https:" := by simpa using hcon
    unfold UrlRule.validate
    simp [jsStrTruthy, hu, hp, hne.1, hne.2]
  · intro protocol hp hcon
    have hu : url ≠ "" := by
      intro h
      subst h
      rw [hempty] at hp
      cases hp
    have hor : protocol = "http:" ∨ protocol = "https:" := by simpa using hcon
    constructor
    · intro hmode
      unfold UrlRule.validate
      rcases hor with h | h <;> subst h <;> simp [jsStrTruthy, hu, hp, hmode]
    · intro hmode
      unfold UrlRule.validate
      rcases hor with h | h <;> subst h <;> simp [jsStrTruthy, hu, hp, hmode]

/-- C7 witness: the spec's URL whitelist scenario — the matching
documentation URL is allowed, a non-matching URL is denied with
"URL not in whitelist", and an `ftp:` URL is denied by the protocol gate. -/
theorem urlRule_validate_characterization_example :
    jsUrlProtocol "ftp://docs.python.org" = some "ftp:" ∧
    (UrlRule.mk "whitelist" [jsCompileGlob "https://docs.python.org/*"]).validate
        "ftp://docs.python.org" = ⟨false, some "Protocol not allowed: ftp:"⟩ ∧
    jsUrlProtocol "https://docs.python.org/3/tutorial" = some "https:" ∧
    (UrlRule.mk "whitelist" [jsCompileGlob "https://docs.python.org/*"]).validate
        "https://docs.python.org/3/tutorial" = ⟨true, none⟩ ∧
    (UrlRule.mk "whitelist" [jsCompileGlob "https://docs.python.org/*"]).validate
        "https://evil.com" = ⟨false, some "URL not in whitelist"⟩ := by
  refine ⟨by decide, ?_, by decide, ?_, ?_⟩
  · exact (urlRule_validate_characterization
      (UrlRule.mk "whitelist" [jsCompileGlob "https://docs.python.org/*"])
      "ftp://docs.python.org").2.1 "ftp:" (by decide) (by decide)
  · have h := ((urlRule_validate_characterization
      (UrlRule.mk "whitelist" [jsCompileGlob "https://docs.python.org/*"])
      "https://docs.python.org/3/tutorial").2.2 "https:" (by decide) (by decide)).1 rfl
    rw [h]
    decide
  · have h := ((urlRule_validate_characterization
      (UrlRule.mk "whitelist" [jsCompileGlob "https://docs.python.org/*"])
      "https://evil.com").2.2 "https:" (by decide) (by decide)).1 rfl
    rw [h]
    decide

/-! ### RuntimeManager admin authentication
(`src/ide-core/runtime/RuntimeManager.js`) -/

/-- The `config.admin` settings `authenticateAdmin` consults. -/
structure AdminConfig where
  sessionTimeout : Nat
  maxLoginAttempts : Nat
  lockoutDuration : Nat
deriving Repr

/-- The `this.adminSession` state of `RuntimeManager`. -/
structure AdminSession where
  authenticated : Bool
  token : Option String
  expiresAt : Option Nat
  loginAttempts : Nat
  lockedUntil : Option Nat
deriving Repr, DecidableEq

/-- The `adminSession` value set up in the `RuntimeManager` constructor. -/
def freshAdminSession : AdminSession :=
  ⟨false, none, none, 0, none⟩

/-- The result object of `authenticateAdmin`. -/
structure AuthResult where
  success : Bool
  token : Option String
  expiresAt : Option Nat
  error : Option String
  attemptsRemaining : Option Nat
deriving Repr, DecidableEq

/-- `RuntimeManager.authenticateAdmin(password)`, as a state transformer.
`now` models `Date.now()`, `newToken` the `uuidv4()` draw, and `isValid`
the outcome of `bcrypt.compare(password, storedHash)` — the stored
credential check.  The JS truthiness guard `this.adminSession.lockedUntil &&
Date.now() < this.adminSession.lockedUntil` is modelled on the optional
timestamp (`some 0` is falsy like the number `0`). -/
def lockoutActive (s : AdminSession) (now : Nat) : Bool :=
  match s.lockedUntil with
  | some lockedUntil => lockedUntil ≠ 0 && now < lockedUntil
  | none => false

def authenticateAdmin (cfg : AdminConfig) (now : Nat) (newToken : String)
    (isValid : Bool) (s : AdminSession) : AuthResult × AdminSession :=
  if lockoutActive s now then
    let remaining := (s.lockedUntil.getD 0 - now + 999) / 1000
    (⟨false, none, none,
      some ("Account locked. Try again in " ++ toString remaining ++ " seconds."),
      none⟩, s)
  else if isValid then
    let s1 : AdminSession :=
      ⟨true, some newToken, some (now + cfg.sessionTimeout), 0, none⟩
    (⟨true, some newToken, some (now + cfg.sessionTimeout), none, none⟩, s1)
  else
    let attempts := s.loginAttempts + 1
    if attempts ≥ cfg.maxLoginAttempts then
      (⟨false, none, none, some "Too many failed attempts. Account locked.", none⟩,
        { s with loginAttempts := attempts, lockedUntil := some (now + cfg.lockoutDuration) })
    else
      (⟨false, none, none, some "Invalid password",
        some (cfg.maxLoginAttempts - attempts)⟩,
        { s with loginAttempts := attempts })

/-- A run of consecutive failed login attempts (wrong password each time)
at the given sequence of clock readings. -/
def failedRun (cfg : AdminConfig) (ts : List Nat) (s : AdminSession) : AdminSession :=
  ts.foldl (fun state t => (authenticateAdmin cfg t "token" false state).2) s

/-- The reject-immediately result returned while locked out. -/
def lockedResult (lockedUntil now : Nat) : AuthResult :=
  ⟨false, none, none,
    some ("Account locked. Try again in "
      ++ toString ((lockedUntil - now + 999) / 1000) ++ " seconds."), none⟩

/-- While locked out (current time strictly before `lockedUntil`), an
attempt is rejected with the remaining-lockout message, the session state is
returned unchanged (no counter increment), and the result does not depend on
the credential-check outcome. -/
theorem authenticateAdmin_locked (cfg : AdminConfig) (s : AdminSession)
    (lockedUntil : Nat) (hL : s.lockedUntil = some lockedUntil)
    (hpos : 0 < lockedUntil) (now : Nat) (hnow : now < lockedUntil)
    (newToken : String) (isValid : Bool) :
    authenticateAdmin cfg now newToken isValid s = (lockedResult lockedUntil now, s) := by
  have hcond : lockoutActive s now = true := by
    simp only [lockoutActive, hL]
    simp only [Bool.and_eq_true, decide_eq_true_eq, ne_eq]
    exact ⟨by omega, by simpa using hnow⟩
  unfold authenticateAdmin
  rw [if_pos hcond, hL]
  unfold lockedResult
  simp

/-- Starting from an unlocked session, a run of failed attempts that brings
the counter exactly to the configured maximum ends locked until
`lockoutDuration` past the final attempt. -/
theorem failedRun_locks (cfg : AdminConfig) :
    ∀ (ts : List Nat) (s : AdminSession), ts ≠ [] → s.lockedUntil = none →
      s.loginAttempts + ts.length = cfg.maxLoginAttempts →
      ∃ tLast ∈ ts, (failedRun cfg ts s).lockedUntil = some (tLast + cfg.lockoutDuration)
        ∧ (failedRun cfg ts s).loginAttempts = cfg.maxLoginAttempts := by
  intro ts
  induction ts with
  | nil => intro s h; exact absurd rfl h
  | cons t rest ih =>
    intro s _ hlock hcount
    have hstep : (authenticateAdmin cfg t "token" false s).2
        = (if s.loginAttempts + 1 ≥ cfg.maxLoginAttempts then
            { s with loginAttempts := s.loginAttempts + 1,
                     lockedUntil := some (t + cfg.lockoutDuration) }
          else { s with loginAttempts := s.loginAttempts + 1 }) := by
      unfold authenticateAdmin
      rw [if_neg (by simp [lockoutActive, hlock]), if_neg (by simp)]
      by_cases ha : s.loginAttempts + 1 ≥ cfg.maxLoginAttempts <;> simp [ha]
    cases rest with
    | nil =>
      simp only [List.length_cons, List.length_nil] at hcount
      have hmax : s.loginAttempts + 1 ≥ cfg.maxLoginAttempts := by omega
      refine ⟨t, List.mem_singleton_self t, ?_, ?_⟩ <;>
        · simp [failedRun, hstep, if_pos hmax]
          try omega
    | cons t2 rest2 =>
      have hlt : ¬ (s.loginAttempts + 1 ≥ cfg.maxLoginAttempts) := by
        simp at hcount
        omega
      have hrun : failedRun cfg (t :: t2 :: rest2) s
          = failedRun cfg (t2 :: rest2) { s with loginAttempts := s.loginAttempts + 1 } := by
        unfold failedRun
        rw [List.foldl_cons, hstep, if_neg hlt]
      obtain ⟨tl, htl, h1, h2⟩ := ih { s with loginAttempts := s.loginAttempts + 1 }
        (by simp) hlock
        (by simp only [List.length_cons] at hcount ⊢; omega)
      exact ⟨tl, List.mem_cons_of_mem t htl, hrun ▸ h1, hrun ▸ h2⟩

/-- C6: after a run of `maxLoginAttempts` consecutive failed attempts from a
fresh session, the account is locked, and every attempt made strictly before
the lockout deadline is rejected with the remaining-lockout message — the
session state (in particular the failure counter) is unchanged and the
result is the same whether or not the submitted password would have matched
the stored credential, i.e. the stored-credential comparison is not
consumed. -/
theorem adminLockout_after_max_failures (cfg : AdminConfig) (ts : List Nat)
    (hlen : ts.length = cfg.maxLoginAttempts) (hpos : 0 < cfg.maxLoginAttempts)
    (hdur : 0 < cfg.lockoutDuration) :
    ∃ lockedUntil, (failedRun cfg ts freshAdminSession).lockedUntil = some lockedUntil
      ∧ 0 < lockedUntil
      ∧ ∀ (now : Nat), now < lockedUntil → ∀ (newToken : String) (isValid : Bool),
          authenticateAdmin cfg now newToken isValid (failedRun cfg ts freshAdminSession)
            = (lockedResult lockedUntil now, failedRun cfg ts freshAdminSession) := by
  have hne : ts ≠ [] := by
    intro h
    rw [h] at hlen
    simp at hlen
    omega
  obtain ⟨tl, _, h1, _⟩ := failedRun_locks cfg ts freshAdminSession hne rfl
    (by simpa [freshAdminSession] using hlen)
  refine ⟨tl + cfg.lockoutDuration, h1, by omega, ?_⟩
  intro now hnow newToken isValid
  exact authenticateAdmin_locked cfg _ _ h1 (by omega) now hnow newToken isValid

/-- C6 witness: with a 3-attempt limit, three failed logins lock the
account, and a fourth attempt at a time inside the lockout window is
rejected without touching the state. -/
theorem adminLockout_after_max_failures_example :
    ([10, 20, 30] : List Nat).length = (AdminConfig.mk 300000 3 300000).maxLoginAttempts ∧
    ∃ lockedUntil,
      (failedRun (AdminConfig.mk 300000 3 300000) [10, 20, 30]
        freshAdminSession).lockedUntil = some lockedUntil
      ∧ 0 < lockedUntil
      ∧ ∀ (now : Nat), now < lockedUntil → ∀ (newToken : String) (isValid : Bool),
          authenticateAdmin (AdminConfig.mk 300000 3 300000) now newToken isValid
              (failedRun (AdminConfig.mk 300000 3 300000) [10, 20, 30] freshAdminSession)
            = (lockedResult lockedUntil now,
               failedRun (AdminConfig.mk 300000 3 300000) [10, 20, 30] freshAdminSession) :=
  ⟨by decide,
    adminLockout_after_max_failures (AdminConfig.mk 300000 3 300000) [10, 20, 30]
      (by decide) (by decide) (by decide)⟩

/-! ### PolicyEngine (`src/ide-core/policy/PolicyEngine.js`) -/

/-- JSON-like policy values, as manipulated by `mergePolicies`. -/
inductive JsonVal where
  | null
  | bool (b : Bool)
  | num (n : Int)
  | str (s : String)
  | arr (elems : List JsonVal)
  | obj (fields : List (String × JsonVal))
deriving Repr

/-- JS truthiness of a policy value (`undefined` is modelled as a missing
key, see `jsLookupOrEmptyObj`). -/
def jsValTruthy : JsonVal → Bool
  | .null => false
  | .bool b => b
  | .num n => n ≠ 0
  | .str s => s ≠ ""
  | .arr _ => true
  | .obj _ => true

/-- The fields of an object value (the merge only spreads objects). -/
def objFields : JsonVal → List (String × JsonVal)
  | .obj fields => fields
  | _ => []

/-- JS object assignment `result[key] = v`: overwrite an existing key in
place, otherwise append. -/
def objSet (fields : List (String × JsonVal)) (k : String) (v : JsonVal) :
    List (String × JsonVal) :=
  if fields.any (fun p => p.1 = k) then fields.map (fun p => if p.1 = k then (k, v) else p)
  else fields ++ [(k, v)]

/-- `base[key] || {}`: a missing key or a falsy value falls back to the
empty object. -/
def jsLookupOrEmptyObj (fields : List (String × JsonVal)) (k : String) : JsonVal :=
  match fields.lookup k with
  | some v => if jsValTruthy v then v else .obj []
  | none => .obj []

mutual

/-- `PolicyEngine.mergePolicies(base, override)`: start from `{...base}`;
for each override key, recurse when the override value is a non-null
non-array object, otherwise assign the override value as-is (nulls, empty
strings and arrays included). -/
def mergePolicies (base override : JsonVal) : JsonVal :=
  match override with
  | .obj ofields => .obj (mergeFields (objFields base) (objFields base) ofields)
  | v => v

/-- The `for (const key of Object.keys(override))` loop of `mergePolicies`:
`bfields` are the original base's fields, `res` the result being built. -/
def mergeFields (bfields res : List (String × JsonVal)) :
    List (String × JsonVal) → List (String × JsonVal)
  | [] => res
  | (k, v) :: rest =>
    let newv :=
      match v with
      | .obj sub => mergePolicies (jsLookupOrEmptyObj bfields k) (.obj sub)
      | other => other
    mergeFields bfields (objSet res k newv) rest

end

/-- `PolicyEngine.validateFileAccess(filePath, operation)`: runs the file
rule, logs, notifies on violation, and returns `result.allowed` — only the
boolean, not the verdict object (logging and notification side effects are
not modelled). -/
def PolicyEngine.validateFileAccess (rule : FileAccessRule)
    (cwd filePath operation : String) : Bool :=
  (rule.validate cwd filePath operation).allowed

/-- C1: `PolicyEngine.validateFileAccess` returns the bare `allowed`
boolean.  At a denied input the underlying rule verdict carries a reason,
but the engine's return value is just `false`, so callers reading `.allowed`
or `.reason` off the result get `undefined` — contradicting the documented
contract that the full `{allowed, reason}` object is returned. -/
theorem validateFileAccess_returns_bare_boolean :
    PolicyEngine.validateFileAccess (FileAccessRule.mk "sandbox" "/sandbox" [] 1000 [] [])
        "/cwd" "/etc/passwd" "read" = false
    ∧ ((FileAccessRule.mk "sandbox" "/sandbox" [] 1000 [] []).validate
        "/cwd" "/etc/passwd" "read").reason = some "Path outside sandbox" := by
  constructor
  · decide
  · decide

/-- C2: `mergePolicies` does *not* treat empty-string or null override
leaves as absent: merging `{fileAccess: {sandboxPath: ""}}` (resp. `null`)
onto a base with a non-empty `sandboxPath` clobbers the base value. -/
theorem mergePolicies_empty_clobbers :
    mergePolicies
        (.obj [("fileAccess", .obj [("sandboxPath", .str "/data/sandbox")])])
        (.obj [("fileAccess", .obj [("sandboxPath", .str "")])])
      = .obj [("fileAccess", .obj [("sandboxPath", .str "")])]
    ∧ mergePolicies
        (.obj [("fileAccess", .obj [("sandboxPath", .str "/data/sandbox")])])
        (.obj [("fileAccess", .obj [("sandboxPath", .null)])])
      = .obj [("fileAccess", .obj [("sandboxPath", .null)])] := by
  constructor <;>
    simp [mergePolicies, mergeFields, objFields, jsLookupOrEmptyObj, objSet,
      jsValTruthy, List.lookup]

end RestrictedIDE
